import Mathlib

/-!
Verification of the Intersvyaz Home Assistant integration core
(custom_components/intersvyaz).  The Python sources are shallowly embedded:
pure helpers become Lean functions, stateful coroutines become explicit
state-passing functions, wall-clock / monotonic instants become explicit
integer parameters, and network responses become explicit
environment records.  Every definition mirrors a concrete function of the
source tree, named after it where Lean allows.
-/

namespace Intersvyaz

/-! ## Token expiry (api.py, MobileToken / CrmToken, const.py) -/

/-- Safety margin, in seconds, subtracted from a token's access window end
before comparing with the current time (const.py, TOKEN_EXPIRATION_MARGIN). -/
def TOKEN_EXPIRATION_MARGIN : Int := 60

/-- Mirror of the MobileToken dataclass (api.py lines 82-103).  Timestamps are
modelled as integral seconds since the epoch; fields irrelevant to expiry
(phone, unique device id, raw payload) carry no logic and are kept as data. -/
structure MobileToken where
  token : String
  user_id : Int
  profile_id : Int
  access_begin : Option Int
  access_end : Option Int
  deriving DecidableEq, Repr

/-- MobileToken.is_expired (api.py lines 95-103): false when access_end is
absent, otherwise true exactly when now has reached access_end minus the
margin. -/
def MobileToken.is_expired (t : MobileToken) (now : Int) : Bool :=
  match t.access_end with
  | none => false
  | some e => decide (now ≥ e - TOKEN_EXPIRATION_MARGIN)

/-- Mirror of the CrmToken dataclass (api.py lines 106-123). -/
structure CrmToken where
  token : String
  user_id : Option Int
  access_begin : Option Int
  access_end : Option Int
  deriving DecidableEq, Repr

/-- CrmToken.is_expired (api.py lines 116-123), identical formula to the
mobile token. -/
def CrmToken.is_expired (t : CrmToken) (now : Int) : Bool :=
  match t.access_end with
  | none => false
  | some e => decide (now ≥ e - TOKEN_EXPIRATION_MARGIN)

/-! ## Relay records, dedupe and sorting (api.py, __init__.py) -/

/-- Mirror of RelayOpener (api.py lines 130-145). -/
structure RelayOpener where
  relay_id : Option Int
  relay_num : Option Int
  mac : Option String
  deriving DecidableEq, Repr

/-- Mirror of RelayInfo (api.py lines 148-170) restricted to the fields the
claims touch: address, mac, is_main flag, entrance uid and the opener
sub-object.  The remaining fields are plain data never read by the merged
fetch, the dedupe key or the sort. -/
structure RelayInfo where
  address : String
  mac : Option String
  is_main : Bool
  entrance_uid : Option String
  opener : Option RelayOpener
  deriving DecidableEq, Repr

/-- Python str.lower(): place every character in lower case (ASCII-faithful
pointwise character map, fully reducible). -/
def pyLower (s : String) : String := String.mk (s.data.map Char.toLower)

/-- Python str.upper(): place every character in upper case. -/
def pyUpper (s : String) : String := String.mk (s.data.map Char.toUpper)

/-- Dedupe key computed inside async_get_relays._collect_batch (api.py lines
505-510): entrance uid lower-cased with empty default, mac upper-cased with
empty default, and the opener's relay_id / relay_num (None both when the
opener is absent and when the field itself is None, exactly as the chained
getattr with a None default behaves). -/
def dedupeKey (r : RelayInfo) : String × String × Option Int × Option Int :=
  (pyLower (r.entrance_uid.getD ""),
   pyUpper (r.mac.getD ""),
   r.opener.bind RelayOpener.relay_id,
   r.opener.bind RelayOpener.relay_num)

/-- One iteration of the for-loop of _collect_batch (api.py lines 504-519):
skip the relay when its dedupe key was already seen, otherwise record the key
and append the relay to the accumulated batch. -/
def collectStep (acc : List (String × String × Option Int × Option Int) × List RelayInfo)
    (r : RelayInfo) : List (String × String × Option Int × Option Int) × List RelayInfo :=
  if dedupeKey r ∈ acc.1 then acc
  else (dedupeKey r :: acc.1, acc.2 ++ [r])

/-- async_get_relays (api.py lines 453-532) with both categories requested and
both network fetches succeeding: the main (isShared=0) batch is folded into
the shared seen-set and output list first, then the shared (isShared=1)
batch.  Networking, pagination and parsing are outside the merge logic the
claim is about; the two already-parsed batches are the inputs. -/
def async_get_relays (mainBatch sharedBatch : List RelayInfo) : List RelayInfo :=
  (List.foldl collectStep (List.foldl collectStep ([], []) mainBatch) sharedBatch).2

/-- Sort key of _sort_relays (__init__.py lines 339-348): the pair
(not is_main, address lower-cased). -/
def relaySortKey (r : RelayInfo) : Bool × String :=
  (!r.is_main, pyLower r.address)

/-- Lexicographic order on the sort keys: main entrances (key false) come
first, ties are ordered by lower-cased address, exactly the comparison Python
applies to the key tuples. -/
def relayLe (a b : RelayInfo) : Bool :=
  (!(relaySortKey a).1 && (relaySortKey b).1) ||
    (((relaySortKey a).1 == (relaySortKey b).1) &&
      decide ((relaySortKey a).2 ≤ (relaySortKey b).2))

/-- The stable sort of _sort_relays (__init__.py lines 339-348).  Python's
sorted is a stable sort by the key tuple; List.mergeSort with the key-induced
total preorder is the same stable sort. -/
def sort_relays (relays : List RelayInfo) : List RelayInfo :=
  relays.mergeSort relayLe

/-! ## Face matching (face_manager.py) -/

/-- The pluggable face_recognition.face_distance capability applied to the
list of known vectors (face_manager.py line 296): one distance per known
vector, in order.  The binary metric d is a parameter, per the spec's
pluggable encode/distance interface; distances are modelled as integers (an order-faithful embedding of the float values; only comparisons matter). -/
def face_distance {κ ε : Type} (d : κ → ε → ℤ) (knownVectors : List κ) (e : ε) : List ℤ :=
  knownVectors.map (fun v => d v e)

/-- The candidate name of _match_known_faces (face_manager.py lines 305-306):
the known name at the first index whose distance equals the minimum
(Python's list.index on the distance array). -/
def matchCandidate {κ ε : Type} (d : κ → ε → ℤ) (knowns : List (String × κ))
    (e : ε) (bd : ℤ) : String :=
  (knowns.map Prod.fst).getD
    ((face_distance d (knowns.map Prod.snd) e).findIdx (fun x => x == bd)) ""

/-- Loop body of _match_known_faces (face_manager.py lines 293-308) for one
detected encoding: take the minimum distance to the known vectors, and when
it clears the threshold adopt the first known name attaining it if it beats
the best match so far (strictly, so earlier encodings win ties). -/
def matchStep {κ ε : Type} (d : κ → ε → ℤ) (knowns : List (String × κ)) (threshold : ℤ)
    (best : Option (String × ℤ)) (e : ε) : Option (String × ℤ) :=
  match (face_distance d (knowns.map Prod.snd) e).min? with
  | none => best
  | some bd =>
    if bd ≤ threshold then
      match best with
      | none => some (matchCandidate d knowns e bd, bd)
      | some p => if bd < p.2 then some (matchCandidate d knowns e bd, bd) else best
    else best

/-- _match_known_faces (face_manager.py lines 275-316) after the external
library produced the list of detected encodings: fold the per-encoding step
over the frame's encodings and return the best accepted name, None when no
encoding's minimum distance clears the threshold.  Known faces are
name/vector pairs, in stored order. -/
def _match_known_faces {κ ε : Type} (d : κ → ε → ℤ) (knowns : List (String × κ))
    (threshold : ℤ) (encodings : List ε) : Option String :=
  (encodings.foldl (matchStep d knowns threshold) none).map Prod.fst

/-! ## Face manager state, cooldown and the known-faces store
(face_manager.py, FaceRecognitionManager) -/

/-- Mirror of the KnownFace dataclass (face_manager.py lines 63-73). -/
structure KnownFace where
  name : String
  encoding : List ℤ
  deriving DecidableEq, Repr

/-- The FaceRecognitionManager state the claims touch: library availability,
the known-faces list, the per-door cooldown dictionary (integral monotonic seconds,
dict.get default 0) and the cooldown width; plus the persisted copy of the
known faces written by _async_store_faces into the config entry options. -/
structure FaceManagerState where
  library_available : Bool
  known_faces : List KnownFace
  door_cooldown : List (String × ℤ)
  cooldown_seconds : ℤ
  options_known_faces : List KnownFace
  deriving DecidableEq, Repr

/-- Python dict.get(uid, 0) over the cooldown dictionary. -/
def cooldownGet (m : List (String × ℤ)) (uid : String) : ℤ :=
  ((m.find? (fun kv => kv.1 == uid)).map Prod.snd).getD 0

/-- Python dict assignment m[uid] = v: replace the entry when the key exists,
append it otherwise. -/
def cooldownSet (m : List (String × ℤ)) (uid : String) (v : ℤ) : List (String × ℤ) :=
  if m.any (fun kv => kv.1 == uid) then
    m.map (fun kv => if kv.1 == uid then (uid, v) else kv)
  else m ++ [(uid, v)]

/-- Outcome of the executor job running _match_known_faces on the fetched
frame: an analysis error (HomeAssistantError), no known face, or a match. -/
inductive MatchOutcome where
  | err : MatchOutcome
  | nomatch : MatchOutcome
  | found : String → MatchOutcome
  deriving DecidableEq, Repr

/-- Per-call data of async_process_image that the embedding keeps explicit:
whether the frame bytes are nonempty, whether an open callback was supplied,
the first time.monotonic() reading (line 211), the matching outcome, whether
the open callback completed without raising, and the second time.monotonic()
reading taken after the open confirmed (line 253). -/
structure ProcessCall where
  image_nonempty : Bool
  has_callback : Bool
  t_check : ℤ
  match_outcome : MatchOutcome
  open_ok : Bool
  t_stamp : ℤ
  deriving DecidableEq, Repr

/-- async_process_image (face_manager.py lines 181-253): guard chain
(library, known faces, image bytes, callback), cooldown check against the
first monotonic reading, matching, the open attempt, and on confirmed
success only, stamping the door's cooldown entry with the second monotonic
reading.  Returns the new state and whether an open was issued and
confirmed. -/
def async_process_image (st : FaceManagerState) (door_uid : String) (c : ProcessCall) :
    FaceManagerState × Bool :=
  if !st.library_available then (st, false)
  else if st.known_faces.isEmpty then (st, false)
  else if !c.image_nonempty then (st, false)
  else if !c.has_callback then (st, false)
  else if c.t_check - cooldownGet st.door_cooldown door_uid < st.cooldown_seconds then (st, false)
  else
    match c.match_outcome with
    | .err => (st, false)
    | .nomatch => (st, false)
    | .found _ =>
      if c.open_ok then
        ({ st with door_cooldown := cooldownSet st.door_cooldown door_uid c.t_stamp }, true)
      else (st, false)

/-- async_remove_known_face (face_manager.py lines 168-179): filter out every
known face carrying the name; when nothing was removed raise (returning the
filtered list, whose content equals the old one) without persisting, else
persist the filtered list via _async_store_faces.  The Bool is true on
success, false when HomeAssistantError was raised. -/
def async_remove_known_face (st : FaceManagerState) (name : String) :
    FaceManagerState × Bool :=
  let filtered := st.known_faces.filter (fun f => f.name ≠ name)
  if filtered.length = st.known_faces.length then
    ({ st with known_faces := filtered }, false)
  else
    ({ st with known_faces := filtered, options_known_faces := filtered }, true)

/-! ## Background cycle single-flight behaviour (background.py,
DoorBackgroundProcessor._async_process_selected) -/

/-- The DoorBackgroundProcessor state bearing on cycle scheduling: whether the
selection set is nonempty, whether the asyncio lock is currently held by an
in-flight cycle, and how many cycles have been started so far (history
counter of the embedding, not a source field). -/
structure BackgroundState where
  selected_nonempty : Bool
  locked : Bool
  cycles_started : Nat
  deriving DecidableEq, Repr

/-- Entry of _async_process_selected (background.py lines 181-193): return
immediately when nothing is selected; return immediately (dropping the
request) when the lock is already held; otherwise acquire the lock and start
a cycle.  The source records nothing about a dropped request: no pending
flag exists in the state. -/
def requestCycle (s : BackgroundState) : BackgroundState :=
  if !s.selected_nonempty then s
  else if s.locked then s
  else { s with locked := true, cycles_started := s.cycles_started + 1 }

/-- Completion of the in-flight cycle (the async-with block of
background.py lines 193-236 ending): the lock is released and nothing else
related to scheduling happens, because no pending-run flag exists. -/
def completeCycle (s : BackgroundState) : BackgroundState :=
  { s with locked := false }

/-! ## Door-open command dispatch (api.py, IntersvyazApiClient) -/

/-- Observable requests the open-door path issues, in order. -/
inductive ApiEvent where
  | crmAuth : ApiEvent
  | openRequest : ApiEvent
  deriving DecidableEq, Repr

/-- Failures of the embedded client, mirroring IntersvyazApiError sites:
missing mobile token, expired mobile token, or an HTTP error status raised by
_handle_response (api.py lines 862-883). -/
inductive ApiFailure where
  | noMobileToken : ApiFailure
  | mobileExpired : ApiFailure
  | httpError : Nat → ApiFailure
  deriving DecidableEq, Repr

/-- Client session state for the open-door path. -/
structure ClientState where
  mobile_token : Option MobileToken
  crm_token : Option CrmToken
  deriving DecidableEq, Repr

/-- Remote responses the open-door path can encounter: the CRM auth endpoint
either returns a parsed CRM token or an HTTP error status, and the open GET
returns an HTTP status (204 expected, an auth failure is a 401). -/
structure OpenDoorEnv where
  crm_auth_response : Except Nat CrmToken
  open_status : Nat
  deriving Repr

/-- _ensure_mobile_token (api.py lines 1003-1013): raise when the mobile
token is absent or expired. -/
def _ensure_mobile_token (st : ClientState) (now : Int) : Except ApiFailure Unit :=
  match st.mobile_token with
  | none => .error .noMobileToken
  | some t => if t.is_expired now then .error .mobileExpired else .ok ()

/-- async_authenticate_crm (api.py lines 433-451): guard the mobile token,
then issue the CRM auth POST (recorded as a crmAuth event even when the
server rejects it) and store the parsed CRM token on success. -/
def async_authenticate_crm (st : ClientState) (now : Int) (env : OpenDoorEnv) :
    Except ApiFailure ClientState × List ApiEvent :=
  match _ensure_mobile_token st now with
  | .error e => (.error e, [])
  | .ok _ =>
    match env.crm_auth_response with
    | .error status => (.error (.httpError status), [.crmAuth])
    | .ok tok => (.ok { st with crm_token := some tok }, [.crmAuth])

/-- _ensure_crm_token (api.py lines 1015-1021): do nothing when a CRM token
is present and not expired, otherwise reauthorize. -/
def _ensure_crm_token (st : ClientState) (now : Int) (env : OpenDoorEnv) :
    Except ApiFailure ClientState × List ApiEvent :=
  match st.crm_token with
  | some t =>
    if !t.is_expired now then (.ok st, [])
    else async_authenticate_crm st now env
  | none => async_authenticate_crm st now env

/-- async_open_door (api.py lines 594-614): ensure the CRM token, then issue
the open GET once; _handle_response raises on any status of 400 and above.
No retry of any kind follows a rejected open request. -/
def async_open_door (st : ClientState) (now : Int) (env : OpenDoorEnv) :
    Except ApiFailure ClientState × List ApiEvent :=
  match _ensure_crm_token st now env with
  | (.error e, evs) => (.error e, evs)
  | (.ok st2, evs) =>
    if env.open_status ≥ 400 then
      (.error (.httpError env.open_status), evs ++ [.openRequest])
    else (.ok st2, evs ++ [.openRequest])

/-! ## Log sanitization (api.py lines 37-51 and 201-260) -/

/-- Keys whose values are always fully masked in logs (api.py lines 38-44,
source set name starts with FULL). -/
def FULL_MASK_KEYS : List String :=
  ["token", "confirmcode", "code", "password", "authid"]

/-- Keys whose string values keep their first and last two characters
(api.py lines 47-51; the source set's name says the mask is partial). -/
def KEEP_ENDS_MASK_KEYS : List String :=
  ["phone", "x-device-id", "unique_device_id"]

/-- Python values appearing in a request context.  Numbers are modelled as
integers (floats never reach the sanitizer in the source: payloads carry
strings and ints). -/
inductive PyVal where
  | pstr : String → PyVal
  | pint : Int → PyVal
  | pbool : Bool → PyVal
  | pnone : PyVal
  | pdict : List (String × PyVal) → PyVal
  | plist : List PyVal → PyVal
  deriving Repr

/-- _mask_string (api.py lines 201-208): keep a two-character hint at each
end only when requested and the string is longer than four characters. -/
def _mask_string (value : String) (keep_ends : Bool) : String :=
  if value = "" then "***"
  else if !keep_ends || value.length ≤ 4 then "***"
  else value.take 2 ++ "***" ++ value.drop (value.length - 2)

/-- Python str(value) for the scalars the keep-ends branch stringifies. -/
def pyStr : PyVal → String
  | .pstr s => s
  | .pint n => toString n
  | .pbool b => if b then "True" else "False"
  | .pnone => "None"
  | .pdict _ => ""
  | .plist _ => ""

/-- Helper for value.split(" ", 1): locate the first space of a character
list, returning the parts before and after it. -/
def splitFirstSpaceAux : List Char → Option (List Char × List Char)
  | [] => none
  | c :: rest =>
    if c = ' ' then some ([], rest)
    else (splitFirstSpaceAux rest).map (fun p => (c :: p.1, p.2))

/-- Python value.split(" ", 1): one part when no space occurs, otherwise the
prefix before the first space and the remainder. -/
def pySplitOnce (s : String) : List String :=
  match splitFirstSpaceAux s.data with
  | none => [s]
  | some p => [String.mk p.1, String.mk p.2]

mutual

/-- _sanitize_value (api.py lines 211-238): recurse through dicts (inner keys
take over) and lists (the outer key is kept), fully mask the fixed secret
keys, partially mask the keep-ends keys, and mask only the secret part of a
Bearer Authorization header; everything else passes through unchanged. -/
def _sanitize_value (key : String) : PyVal → PyVal
  | .pdict es => .pdict (sanitizeEntries es)
  | .plist xs => .plist (sanitizeItems key xs)
  | v =>
    if pyLower key ∈ FULL_MASK_KEYS then
      match v with
      | .pstr s => .pstr (_mask_string s false)
      | _ => .pstr "***"
    else if pyLower key ∈ KEEP_ENDS_MASK_KEYS then
      match v with
      | .pstr s => .pstr (_mask_string s true)
      | .pint n => .pstr (_mask_string (pyStr (.pint n)) true)
      | .pbool b => .pstr (_mask_string (pyStr (.pbool b)) true)
      | _ => .pstr "***"
    else if pyLower key = "authorization" then
      match v with
      | .pstr s =>
        match pySplitOnce s with
        | [a, b] => .pstr (a ++ " " ++ _mask_string b false)
        | _ => .pstr (_mask_string s false)
      | w => w
    else v

/-- The dict comprehension of _sanitize_value applied entrywise: each value is
sanitized under its own key. -/
def sanitizeEntries : List (String × PyVal) → List (String × PyVal)
  | [] => []
  | e :: rest => (e.1, _sanitize_value e.1 e.2) :: sanitizeEntries rest

/-- The list comprehension of _sanitize_value: every item is sanitized under
the enclosing key. -/
def sanitizeItems (key : String) : List PyVal → List PyVal
  | [] => []
  | v :: rest => _sanitize_value key v :: sanitizeItems key rest

end

/-- The request context assembled by _request (api.py lines 832-839): method,
url, and the three dict sections the sanitizer rewrites.  In the source the
three sections are always dicts (json and params default to empty dicts), so
the isinstance guards of _sanitize_request_context always pass. -/
structure RequestContext where
  method : String
  url : String
  headers : List (String × PyVal)
  json : List (String × PyVal)
  params : List (String × PyVal)
  deriving Repr

/-- _sanitize_request_context (api.py lines 241-260): deep-copy the context
and rewrite the headers, json and params sections entrywise through
_sanitize_value. -/
def _sanitize_request_context (ctx : RequestContext) : RequestContext :=
  { ctx with
    headers := sanitizeEntries ctx.headers
    json := sanitizeEntries ctx.json
    params := sanitizeEntries ctx.params }

/-- Two values differ only in fully-masked secrets: they are equal, or they
are both strings under a fully-masked key, or both Bearer values under an
Authorization key differing only in the secret part, or they agree in shape
and keys and their components are so related (inner dict keys take over,
matching _sanitize_value's recursion). -/
inductive SecretEquiv : String → PyVal → PyVal → Prop where
  | refl (k : String) (v : PyVal) : SecretEquiv k v v
  | secret (k : String) (s1 s2 : String) (h : pyLower k ∈ FULL_MASK_KEYS) :
      SecretEquiv k (.pstr s1) (.pstr s2)
  | bearer (k : String) (s1 s2 : String) (h : pyLower k = "authorization") :
      SecretEquiv k (.pstr ("Bearer " ++ s1)) (.pstr ("Bearer " ++ s2))
  | dict (k : String) (es1 es2 : List (String × PyVal))
      (hlen : es1.length = es2.length)
      (hkey : ∀ i (h1 : i < es1.length) (h2 : i < es2.length),
        (es1.get ⟨i, h1⟩).1 = (es2.get ⟨i, h2⟩).1)
      (hval : ∀ i (h1 : i < es1.length) (h2 : i < es2.length),
        SecretEquiv (es1.get ⟨i, h1⟩).1 (es1.get ⟨i, h1⟩).2 (es2.get ⟨i, h2⟩).2) :
      SecretEquiv k (.pdict es1) (.pdict es2)
  | list (k : String) (xs1 xs2 : List PyVal)
      (hlen : xs1.length = xs2.length)
      (hval : ∀ i (h1 : i < xs1.length) (h2 : i < xs2.length),
        SecretEquiv k (xs1.get ⟨i, h1⟩) (xs2.get ⟨i, h2⟩)) :
      SecretEquiv k (.plist xs1) (.plist xs2)

/-- Two request contexts differ only in fully-masked secrets: same method and
url, and the three sections are entrywise SecretEquiv under their own keys. -/
def ContextSecretEquiv (c1 c2 : RequestContext) : Prop :=
  c1.method = c2.method ∧ c1.url = c2.url ∧
  SecretEquiv "headers" (.pdict c1.headers) (.pdict c2.headers) ∧
  SecretEquiv "json" (.pdict c1.json) (.pdict c2.json) ∧
  SecretEquiv "params" (.pdict c1.params) (.pdict c2.params)

/-- Reference form of the seen-set dedupe of async_get_relays used by the
proofs: keep a record when its key is outside the seen set, extending the
seen set as records are kept. -/
def dedupeList (seen : List (String × String × Option Int × Option Int)) :
    List RelayInfo → List RelayInfo
  | [] => []
  | r :: rs =>
    if dedupeKey r ∈ seen then dedupeList seen rs
    else r :: dedupeList (dedupeKey r :: seen) rs

/-!  Theorems.  Each claim of the specification audit gets one theorem (plus
a witness or counterexample where applicable); shared helper lemmas come
first. -/

theorem mask_string_false (s : String) : _mask_string s false = "***" := by
  unfold _mask_string
  split
  · rfl
  · simp

theorem foldl_collectStep_eq (l : List RelayInfo)
    (seen : List (String × String × Option Int × Option Int)) (acc : List RelayInfo) :
    List.foldl collectStep (seen, acc) l =
      ((List.foldl collectStep (seen, acc) l).1, acc ++ dedupeList seen l) := by
  induction l generalizing seen acc with
  | nil => simp [dedupeList]
  | cons r rs ih =>
    simp only [List.foldl_cons, collectStep, dedupeList]
    by_cases h : dedupeKey r ∈ seen
    · simp only [h, if_pos]
      exact ih seen acc
    · simp only [h, if_neg, not_false_iff, ite_false]
      rw [ih (dedupeKey r :: seen) (acc ++ [r])]
      simp

theorem dedupeList_countP (k : String × String × Option Int × Option Int)
    (l : List RelayInfo) :
    ∀ seen, (dedupeList seen l).countP (fun r => dedupeKey r == k) =
      if k ∈ seen then 0
      else if l.any (fun r => dedupeKey r == k) then 1 else 0 := by
  induction l with
  | nil => intro seen; simp [dedupeList]
  | cons r rs ih =>
    intro seen
    simp only [dedupeList]
    by_cases hseen : dedupeKey r ∈ seen
    · rw [if_pos hseen, ih seen]
      by_cases hk : k ∈ seen
      · simp [hk]
      · have hne : ¬ (dedupeKey r == k) = true := by
          simp only [beq_iff_eq]
          intro hb
          exact hk (hb ▸ hseen)
        simp [hk, List.any_cons, hne]
    · rw [if_neg hseen]
      by_cases hrk : dedupeKey r = k
      · subst hrk
        rw [List.countP_cons_of_pos _ _ (by simp)]
        rw [ih (dedupeKey r :: seen)]
        simp [hseen]
      · have hkr : ¬ k = dedupeKey r := fun h => hrk h.symm
        rw [List.countP_cons_of_neg _ _ (by simp [hrk])]
        rw [ih (dedupeKey r :: seen)]
        by_cases hk : k ∈ seen
        · simp [hk, List.mem_cons, hrk]
        · have hnotin : ¬ k ∈ dedupeKey r :: seen := by
            simp [List.mem_cons, hk, hkr]
          rw [if_neg hnotin, if_neg hk]
          simp [List.any_cons, hrk]

theorem dedupeList_find? (k : String × String × Option Int × Option Int)
    (l : List RelayInfo) :
    ∀ seen, k ∉ seen →
      (dedupeList seen l).find? (fun r => dedupeKey r == k) =
        l.find? (fun r => dedupeKey r == k) := by
  induction l with
  | nil => intro seen _; simp [dedupeList]
  | cons r rs ih =>
    intro seen hk
    simp only [dedupeList]
    by_cases hseen : dedupeKey r ∈ seen
    · rw [if_pos hseen]
      have hne : (dedupeKey r == k) = false := by
        simp only [beq_eq_false_iff_ne, ne_eq]
        intro hb
        exact hk (hb ▸ hseen)
      rw [List.find?_cons, hne]
      exact ih seen hk
    · rw [if_neg hseen]
      by_cases hrk : dedupeKey r = k
      · rw [List.find?_cons, List.find?_cons, show (dedupeKey r == k) = true by simp [hrk]]
      · have hkr : ¬ k = dedupeKey r := fun h => hrk h.symm
        rw [List.find?_cons, List.find?_cons, show (dedupeKey r == k) = false by simp [hrk]]
        exact ih (dedupeKey r :: seen) (by simp [List.mem_cons, hk, hkr])

theorem relayLe_trans (a b c : RelayInfo) (h1 : relayLe a b = true)
    (h2 : relayLe b c = true) : relayLe a c = true := by
  unfold relayLe at *
  cases ha : (relaySortKey a).1 <;> cases hb : (relaySortKey b).1 <;>
    cases hc : (relaySortKey c).1 <;>
    simp only [ha, hb, hc, Bool.not_true, Bool.not_false, Bool.true_and, Bool.false_and,
      Bool.and_true, Bool.and_false, Bool.or_true, Bool.true_or, Bool.false_or,
      Bool.or_false, beq_self_eq_true, Bool.true_and, decide_eq_true_eq] at h1 h2 ⊢ <;>
    first
      | rfl
      | exact le_trans h1 h2
      | exact h1.elim
      | exact h2.elim
      | simp_all

theorem relayLe_total (a b : RelayInfo) : (relayLe a b || relayLe b a) = true := by
  unfold relayLe
  cases ha : (relaySortKey a).1 <;> cases hb : (relaySortKey b).1 <;>
    simp [ha, hb] <;> exact le_total _ _

/-- C4: for every dedupe key, the merged relay list produced by the two
category fetches of async_get_relays contains exactly one record with that
key when any raw record across the two batches carries it (zero otherwise),
and the record kept is the first occurrence in main-then-shared order. -/
theorem c4_relay_dedupe (mainBatch sharedBatch : List RelayInfo)
    (k : String × String × Option Int × Option Int) :
    ((async_get_relays mainBatch sharedBatch).countP (fun r => dedupeKey r == k) =
      if (mainBatch ++ sharedBatch).any (fun r => dedupeKey r == k) then 1 else 0) ∧
    ((async_get_relays mainBatch sharedBatch).find? (fun r => dedupeKey r == k) =
      (mainBatch ++ sharedBatch).find? (fun r => dedupeKey r == k)) := by
  have hfold : async_get_relays mainBatch sharedBatch =
      dedupeList [] (mainBatch ++ sharedBatch) := by
    unfold async_get_relays
    rw [← List.foldl_append, foldl_collectStep_eq]
    simp
  rw [hfold]
  refine ⟨?_, dedupeList_find? k _ [] (by simp)⟩
  rw [dedupeList_countP]
  simp

/-- C8: when the relay list holds exactly one main relay, the stable sort of
_sort_relays puts the main relay first, followed by exactly the non-main
relays ordered by case-insensitive address. -/
theorem c8_sort_relays (l : List RelayInfo) (m : RelayInfo)
    (hm : m ∈ l) (hmain : m.is_main = true)
    (hcount : l.countP (fun r => r.is_main) = 1) :
    ∃ t, sort_relays l = m :: t ∧
      t.Perm (l.filter (fun r => !r.is_main)) ∧
      t.Pairwise (fun a b => pyLower a.address ≤ pyLower b.address) := by
  have hperm : (sort_relays l).Perm l := List.mergeSort_perm l relayLe
  have hsorted : (sort_relays l).Pairwise (fun a b => relayLe a b = true) :=
    List.sorted_mergeSort relayLe_trans relayLe_total l
  have hmem : m ∈ sort_relays l := hperm.mem_iff.mpr hm
  cases hsl : sort_relays l with
  | nil => rw [hsl] at hmem; cases hmem
  | cons x t =>
    rw [hsl] at hsorted hperm hmem
    have hxmain : x.is_main = true := by
      by_contra hx
      have hx' : x.is_main = false := by
        cases hxv : x.is_main
        · rfl
        · exact absurd hxv hx
      have hmx : m ≠ x := fun h => hx (h ▸ hmain)
      have hmt : m ∈ t := by
        rcases List.mem_cons.mp hmem with h | h
        · exact absurd h hmx
        · exact h
      have hle : relayLe x m = true := (List.pairwise_cons.mp hsorted).1 m hmt
      unfold relayLe relaySortKey at hle
      rw [hmain, hx'] at hle
      simp at hle
    have hc := hperm.countP_eq (fun r => r.is_main)
    rw [hcount, List.countP_cons_of_pos _ _ (by simpa using hxmain)] at hc
    have hct : t.countP (fun r => r.is_main) = 0 := by omega
    have htnm : ∀ r ∈ t, r.is_main = false := by
      intro r hr
      have := List.countP_eq_zero.mp hct r hr
      simpa using this
    have hxm : x = m := by
      by_contra hne
      have hmt : m ∈ t := by
        rcases List.mem_cons.mp hmem with h | h
        · exact absurd h (fun hh => hne hh.symm)
        · exact h
      have := htnm m hmt
      rw [hmain] at this
      cases this
    subst hxm
    refine ⟨t, rfl, ?_, ?_⟩
    · have hfl : (l.filter (fun r => !r.is_main)).Perm
          ((x :: t).filter (fun r => !r.is_main)) := (hperm.symm).filter _
      have hfx : (x :: t).filter (fun r => !r.is_main) = t.filter (fun r => !r.is_main) := by
        rw [List.filter_cons]
        simp [hmain]
      have hft : t.filter (fun r => !r.is_main) = t :=
        List.filter_eq_self.mpr (fun a ha => by simp [htnm a ha])
      rw [hfx, hft] at hfl
      exact hfl.symm
    · have ht_sorted := (List.pairwise_cons.mp hsorted).2
      refine List.Pairwise.imp_of_mem ?_ ht_sorted
      intro a b ha hb hle
      unfold relayLe relaySortKey at hle
      rw [htnm a ha, htnm b hb] at hle
      simpa using hle

/-- C8 witness: the sort applied to one main relay (address z) and two
non-main relays (addresses B and a) yields the main relay first. -/
theorem c8_sort_relays_witness :
    ∃ t, sort_relays
        [⟨"B", none, false, none, none⟩, ⟨"z", none, true, none, none⟩,
         ⟨"a", none, false, none, none⟩] =
      (⟨"z", none, true, none, none⟩ : RelayInfo) :: t ∧
      t.Perm ([⟨"B", none, false, none, none⟩, ⟨"z", none, true, none, none⟩,
          ⟨"a", none, false, none, none⟩].filter (fun r => !r.is_main)) ∧
      t.Pairwise (fun a b => pyLower a.address ≤ pyLower b.address) :=
  c8_sort_relays _ ⟨"z", none, true, none, none⟩ (by decide) (by decide) (by decide)

theorem open_door_valid_crm (st : ClientState) (now : Int) (env : OpenDoorEnv)
    (t : CrmToken) (ht : st.crm_token = some t) (hv : t.is_expired now = false) :
    async_open_door st now env =
      ((if env.open_status ≥ 400 then .error (.httpError env.open_status) else .ok st),
       [ApiEvent.openRequest]) := by
  unfold async_open_door _ensure_crm_token
  rw [ht]
  simp only [hv, Bool.not_false, if_pos]
  by_cases hs : env.open_status ≥ 400 <;> simp [hs]

theorem open_door_stale_crm (st : ClientState) (now : Int) (env : OpenDoorEnv)
    (mt : MobileToken) (hm : st.mobile_token = some mt) (hmv : mt.is_expired now = false)
    (hcrm : st.crm_token = none ∨ ∃ t, st.crm_token = some t ∧ t.is_expired now = true) :
    async_open_door st now env =
      (match env.crm_auth_response with
       | .error s => ((.error (.httpError s) : Except ApiFailure ClientState),
           [ApiEvent.crmAuth])
       | .ok tok =>
         ((if env.open_status ≥ 400 then .error (.httpError env.open_status)
           else .ok { st with crm_token := some tok }),
          [ApiEvent.crmAuth, ApiEvent.openRequest])) := by
  have hens : _ensure_crm_token st now env = async_authenticate_crm st now env := by
    rcases hcrm with h | ⟨t, ht, hexp⟩
    · simp [_ensure_crm_token, h]
    · simp [_ensure_crm_token, ht, hexp]
  unfold async_open_door
  rw [hens]
  unfold async_authenticate_crm _ensure_mobile_token
  rw [hm]
  simp only [hmv, if_neg, Bool.false_eq_true, not_false_iff]
  cases env.crm_auth_response with
  | error s => simp
  | ok tok => by_cases hs : env.open_status ≥ 400 <;> simp [hs]

/-- C7: with a valid mobile token, async_open_door performs exactly one CRM
authentication call when the CRM token is absent or expired, and that call
precedes the open request (which is only issued when the authentication
succeeded); when the CRM token is present and unexpired, no authentication
call is made at all. -/
theorem c7_open_door_auth (st : ClientState) (now : Int) (env : OpenDoorEnv)
    (mt : MobileToken) (hm : st.mobile_token = some mt) (hmv : mt.is_expired now = false) :
    ((st.crm_token = none ∨ ∃ t, st.crm_token = some t ∧ t.is_expired now = true) →
      (async_open_door st now env).2 = [ApiEvent.crmAuth] ∨
      (async_open_door st now env).2 = [ApiEvent.crmAuth, ApiEvent.openRequest]) ∧
    ((∃ t, st.crm_token = some t ∧ t.is_expired now = false) →
      (async_open_door st now env).2 = [ApiEvent.openRequest]) := by
  constructor
  · intro hcrm
    rw [open_door_stale_crm st now env mt hm hmv hcrm]
    cases env.crm_auth_response with
    | error s => left; rfl
    | ok tok => right; rfl
  · intro ⟨t, ht, hv⟩
    rw [open_door_valid_crm st now env t ht hv]

/-- C7 witness: a client with a valid mobile token and no CRM token
authenticates once before the open request, and a client with a fresh CRM
token issues the open request alone. -/
theorem c7_open_door_auth_witness :
    (((none : Option CrmToken) = none ∨
        ∃ t, (none : Option CrmToken) = some t ∧ t.is_expired 0 = true) →
      (async_open_door ⟨some ⟨"m", 1, 2, none, none⟩, none⟩ 0
          ⟨.ok ⟨"c2", none, none, none⟩, 204⟩).2 = [ApiEvent.crmAuth] ∨
      (async_open_door ⟨some ⟨"m", 1, 2, none, none⟩, none⟩ 0
          ⟨.ok ⟨"c2", none, none, none⟩, 204⟩).2 = [ApiEvent.crmAuth, ApiEvent.openRequest]) ∧
    ((∃ t, (none : Option CrmToken) = some t ∧ t.is_expired 0 = false) →
      (async_open_door ⟨some ⟨"m", 1, 2, none, none⟩, none⟩ 0
          ⟨.ok ⟨"c2", none, none, none⟩, 204⟩).2 = [ApiEvent.openRequest]) :=
  c7_open_door_auth ⟨some ⟨"m", 1, 2, none, none⟩, none⟩ 0
    ⟨.ok ⟨"c2", none, none, none⟩, 204⟩ ⟨"m", 1, 2, none, none⟩ rfl rfl

/-- C3 counterexample: with a present unexpired CRM token and the CRM
rejecting the open GET with status 401, async_open_door surfaces the 401
after a single open request: no reauthorization happens and no second open
attempt is issued, contradicting the claimed reauthorize-once-and-retry. -/
theorem c3_counterexample :
    (async_open_door ⟨some ⟨"m", 1, 2, none, none⟩, some ⟨"c", none, none, none⟩⟩ 0
        ⟨.ok ⟨"c2", none, none, none⟩, 401⟩).2.count ApiEvent.openRequest = 1 ∧
    (async_open_door ⟨some ⟨"m", 1, 2, none, none⟩, some ⟨"c", none, none, none⟩⟩ 0
        ⟨.ok ⟨"c2", none, none, none⟩, 401⟩).2.count ApiEvent.crmAuth = 0 ∧
    (async_open_door ⟨some ⟨"m", 1, 2, none, none⟩, some ⟨"c", none, none, none⟩⟩ 0
        ⟨.ok ⟨"c2", none, none, none⟩, 401⟩).1 = .error (.httpError 401) :=
  ⟨rfl, rfl, rfl⟩

/-- C3 amended: async_open_door never retries: the open request is issued at
most once, the only CRM authentication is the pre-flight ensure step (one
call when the CRM token is absent or expired, none when it is valid), and a
rejected open request (status 400 and above, e.g. a 401 auth failure) is
surfaced to the caller as the error of that first and only attempt. -/
theorem c3_open_door_no_retry (st : ClientState) (now : Int) (env : OpenDoorEnv)
    (mt : MobileToken) (hm : st.mobile_token = some mt) (hmv : mt.is_expired now = false) :
    (async_open_door st now env).2.count ApiEvent.openRequest ≤ 1 ∧
    ((∃ t, st.crm_token = some t ∧ t.is_expired now = false) →
      (async_open_door st now env).2.count ApiEvent.crmAuth = 0) ∧
    ((st.crm_token = none ∨ ∃ t, st.crm_token = some t ∧ t.is_expired now = true) →
      (async_open_door st now env).2.count ApiEvent.crmAuth = 1) ∧
    (env.open_status ≥ 400 → ApiEvent.openRequest ∈ (async_open_door st now env).2 →
      (async_open_door st now env).1 = .error (.httpError env.open_status)) := by
  by_cases hvalid : ∃ t, st.crm_token = some t ∧ t.is_expired now = false
  · obtain ⟨t, ht, hv⟩ := hvalid
    rw [open_door_valid_crm st now env t ht hv]
    refine ⟨by simp, fun _ => by simp, ?_, ?_⟩
    · intro hcrm
      rcases hcrm with h | ⟨t2, ht2, hexp⟩
      · rw [h] at ht; cases ht
      · rw [ht2] at ht
        injection ht with hteq
        rw [hteq] at hexp
        rw [hexp] at hv
        cases hv
    · intro hs _
      simp [hs]
  · have hcrm : st.crm_token = none ∨ ∃ t, st.crm_token = some t ∧ t.is_expired now = true := by
      cases hct : st.crm_token with
      | none => exact Or.inl rfl
      | some t =>
        right
        refine ⟨t, rfl, ?_⟩
        cases hexp : t.is_expired now with
        | true => rfl
        | false => exact absurd ⟨t, hct, hexp⟩ hvalid
    rw [open_door_stale_crm st now env mt hm hmv hcrm]
    cases env.crm_auth_response with
    | error s =>
      refine ⟨by simp, ?_, fun _ => by simp [List.count], ?_⟩
      · intro h
        exact absurd h hvalid
      · intro _ hmem
        simp [List.count, List.countP] at hmem
    | ok tok =>
      refine ⟨?_, ?_, fun _ => ?_, ?_⟩
      · by_cases hs : env.open_status ≥ 400 <;> simp only [hs, if_pos, if_neg, ite_true,
          ite_false, not_false_iff] <;> decide
      · intro h
        exact absurd h hvalid
      · by_cases hs : env.open_status ≥ 400 <;> simp only [hs, if_pos, if_neg, ite_true,
          ite_false, not_false_iff] <;> decide
      · intro hs _
        simp [hs]

/-- C3 amended witness: fresh CRM token, open rejected with 401: one open
request, no auth call, the 401 surfaced. -/
theorem c3_open_door_no_retry_witness :
    (async_open_door ⟨some ⟨"m", 1, 2, none, none⟩, some ⟨"c", none, none, none⟩⟩ 5
        ⟨.ok ⟨"c2", none, none, none⟩, 401⟩).2.count ApiEvent.openRequest ≤ 1 ∧
    ((∃ t, (some (⟨"c", none, none, none⟩ : CrmToken)) = some t ∧ t.is_expired 5 = false) →
      (async_open_door ⟨some ⟨"m", 1, 2, none, none⟩, some ⟨"c", none, none, none⟩⟩ 5
          ⟨.ok ⟨"c2", none, none, none⟩, 401⟩).2.count ApiEvent.crmAuth = 0) ∧
    (((some (⟨"c", none, none, none⟩ : CrmToken)) = none ∨
        ∃ t, (some (⟨"c", none, none, none⟩ : CrmToken)) = some t ∧ t.is_expired 5 = true) →
      (async_open_door ⟨some ⟨"m", 1, 2, none, none⟩, some ⟨"c", none, none, none⟩⟩ 5
          ⟨.ok ⟨"c2", none, none, none⟩, 401⟩).2.count ApiEvent.crmAuth = 1) ∧
    ((401 : Nat) ≥ 400 → ApiEvent.openRequest ∈
        (async_open_door ⟨some ⟨"m", 1, 2, none, none⟩, some ⟨"c", none, none, none⟩⟩ 5
          ⟨.ok ⟨"c2", none, none, none⟩, 401⟩).2 →
      (async_open_door ⟨some ⟨"m", 1, 2, none, none⟩, some ⟨"c", none, none, none⟩⟩ 5
          ⟨.ok ⟨"c2", none, none, none⟩, 401⟩).1 = .error (.httpError 401)) :=
  c3_open_door_no_retry ⟨some ⟨"m", 1, 2, none, none⟩, some ⟨"c", none, none, none⟩⟩ 5
    ⟨.ok ⟨"c2", none, none, none⟩, 401⟩ ⟨"m", 1, 2, none, none⟩ rfl rfl

theorem cooldownGet_cooldownSet_same (m : List (String × ℤ)) (uid : String) (v : ℤ) :
    cooldownGet (cooldownSet m uid v) uid = v := by
  unfold cooldownSet
  by_cases hany : m.any (fun kv => kv.1 == uid)
  · rw [if_pos hany]
    unfold cooldownGet
    induction m with
    | nil => cases hany
    | cons kv rest ih =>
      cases hkv : (kv.1 == uid) with
      | true =>
        simp only [List.map_cons, hkv, if_pos, ite_true]
        rw [List.find?_cons, show ((uid, v).1 == uid) = true by simp]
        rfl
      | false =>
        rw [List.map_cons, if_neg (by rw [hkv]; exact Bool.false_ne_true)]
        rw [List.find?_cons, hkv]
        have hrest : rest.any (fun kv => kv.1 == uid) = true := by
          rcases List.any_eq_true.mp hany with ⟨x, hx, hpx⟩
          rcases List.mem_cons.mp hx with h | h
          · rw [h] at hpx; rw [hpx] at hkv; cases hkv
          · exact List.any_eq_true.mpr ⟨x, h, hpx⟩
        exact ih hrest
  · rw [if_neg hany]
    unfold cooldownGet
    have hnone : m.find? (fun kv => kv.1 == uid) = none := by
      rw [List.find?_eq_none]
      intro x hx hpx
      exact hany (List.any_eq_true.mpr ⟨x, hx, hpx⟩)
    rw [List.find?_append, hnone]
    simp

theorem process_image_run (st : FaceManagerState) (uid : String) (c : ProcessCall)
    (hlib : st.library_available = true) (hkf : st.known_faces.isEmpty = false)
    (himg : c.image_nonempty = true) (hcb : c.has_callback = true)
    (hcd : st.cooldown_seconds ≤ c.t_check - cooldownGet st.door_cooldown uid) :
    async_process_image st uid c =
      match c.match_outcome with
      | .err => (st, false)
      | .nomatch => (st, false)
      | .found _ =>
        if c.open_ok then
          ({ st with door_cooldown := cooldownSet st.door_cooldown uid c.t_stamp }, true)
        else (st, false) := by
  have hnotlt : ¬ (c.t_check - cooldownGet st.door_cooldown uid < st.cooldown_seconds) :=
    not_lt.mpr hcd
  unfold async_process_image
  rw [hlib, hkf, himg, hcb, if_neg hnotlt]
  simp

theorem process_image_skip (st : FaceManagerState) (uid : String) (c : ProcessCall)
    (hcd : c.t_check - cooldownGet st.door_cooldown uid < st.cooldown_seconds) :
    async_process_image st uid c = (st, false) := by
  unfold async_process_image
  by_cases hlib : st.library_available
  · by_cases hkf : st.known_faces.isEmpty
    · simp [hlib, hkf]
    · by_cases himg : c.image_nonempty
      · by_cases hcb : c.has_callback
        · simp [hlib, hkf, himg, hcb, hcd]
        · simp [hlib, hkf, himg, hcb]
      · simp [hlib, hkf, himg]
  · simp [hlib]

/-- C5 counterexample: cooldown 5 seconds; the first match is checked at
monotonic time 100, the open succeeds and is stamped at its completion time
110; the second match arrives at time 111, spaced 11 seconds (more than the
5-second cooldown) after the first match, yet no second open happens because
the code measures from the completion stamp (111 - 110 < 5).  The claim as
stated (matches spaced more than cooldownSeconds apart cause two opens) is
therefore false of the code. -/
theorem c5_counterexample :
    ((111 : ℤ) - 100 > 5) ∧
    (async_process_image ⟨true, [⟨"alice", [0]⟩], [], 5, [⟨"alice", [0]⟩]⟩ "door"
        ⟨true, true, 100, .found "alice", true, 110⟩).2 = true ∧
    (async_process_image
        (async_process_image ⟨true, [⟨"alice", [0]⟩], [], 5, [⟨"alice", [0]⟩]⟩ "door"
          ⟨true, true, 100, .found "alice", true, 110⟩).1 "door"
        ⟨true, true, 111, .found "alice", true, 112⟩).2 = false := by
  refine ⟨by decide, by decide, by decide⟩

/-- C5 amended: with the guards satisfied and the first call matching a known
face, (a) a successful open is stamped with the completion-time monotonic
reading; a second match within cooldownSeconds of the first match causes no
second open, while a second match at least cooldownSeconds after the
completion stamp of the successful open causes a second open; and (b) a
failed open leaves the state (including the cooldown stamp) unchanged, so an
immediately following matching cycle opens again. -/
theorem c5_cooldown (st0 : FaceManagerState) (uid : String) (c1 c2 : ProcessCall)
    (n1 n2 : String)
    (hlib : st0.library_available = true)
    (hkf : st0.known_faces.isEmpty = false)
    (h1img : c1.image_nonempty = true) (h1cb : c1.has_callback = true)
    (h2img : c2.image_nonempty = true) (h2cb : c2.has_callback = true)
    (hm1 : c1.match_outcome = .found n1)
    (hfirst : st0.cooldown_seconds ≤ c1.t_check - cooldownGet st0.door_cooldown uid)
    (hmono1 : c1.t_check ≤ c1.t_stamp) :
    (c1.open_ok = true →
      (async_process_image st0 uid c1).2 = true ∧
      cooldownGet (async_process_image st0 uid c1).1.door_cooldown uid = c1.t_stamp ∧
      (c2.t_check - c1.t_check < st0.cooldown_seconds →
        (async_process_image (async_process_image st0 uid c1).1 uid c2).2 = false) ∧
      (st0.cooldown_seconds ≤ c2.t_check - c1.t_stamp →
        c2.match_outcome = .found n2 → c2.open_ok = true →
        (async_process_image (async_process_image st0 uid c1).1 uid c2).2 = true)) ∧
    (c1.open_ok = false →
      (async_process_image st0 uid c1).2 = false ∧
      (async_process_image st0 uid c1).1 = st0 ∧
      (c1.t_check ≤ c2.t_check → c2.match_outcome = .found n2 → c2.open_ok = true →
        (async_process_image st0 uid c2).2 = true)) := by
  have hrun1 := process_image_run st0 uid c1 hlib hkf h1img h1cb hfirst
  rw [hm1] at hrun1
  constructor
  · intro hok
    rw [hok] at hrun1
    simp only [ite_true, if_pos] at hrun1
    rw [hrun1]
    have hget : cooldownGet (cooldownSet st0.door_cooldown uid c1.t_stamp) uid = c1.t_stamp :=
      cooldownGet_cooldownSet_same _ _ _
    refine ⟨rfl, hget, ?_, ?_⟩
    · intro hclose
      apply (Prod.ext_iff.mp (process_image_skip _ uid c2 ?_)).2
      simp only [hget]
      have := hmono1
      linarith
    · intro hfar hm2 hok2
      have hrun2 := process_image_run
        { st0 with door_cooldown := cooldownSet st0.door_cooldown uid c1.t_stamp }
        uid c2 hlib hkf h2img h2cb (by simpa [hget] using hfar)
      rw [hm2, hok2] at hrun2
      simp only [ite_true, if_pos] at hrun2
      rw [hrun2]
  · intro hfail
    rw [hfail] at hrun1
    simp only [ite_false, Bool.false_eq_true, if_neg, not_false_iff] at hrun1
    rw [hrun1]
    refine ⟨rfl, rfl, ?_⟩
    intro hlater hm2 hok2
    have hcd2 : st0.cooldown_seconds ≤ c2.t_check - cooldownGet st0.door_cooldown uid := by
      linarith
    have hrun2 := process_image_run st0 uid c2 hlib hkf h2img h2cb hcd2
    rw [hm2, hok2] at hrun2
    simp only [ite_true, if_pos] at hrun2
    rw [hrun2]

/-- C5 witness: concrete two-cycle run exercising the successful-open branch
of the amended cooldown property. -/
theorem c5_cooldown_witness :
    ((true : Bool) = true →
      (async_process_image ⟨true, [⟨"alice", [0]⟩], [], 5, [⟨"alice", [0]⟩]⟩ "door"
          ⟨true, true, 100, .found "alice", true, 101⟩).2 = true ∧
      cooldownGet (async_process_image ⟨true, [⟨"alice", [0]⟩], [], 5, [⟨"alice", [0]⟩]⟩
          "door" ⟨true, true, 100, .found "alice", true, 101⟩).1.door_cooldown "door" = 101 ∧
      ((103 : ℤ) - 100 < 5 →
        (async_process_image
            (async_process_image ⟨true, [⟨"alice", [0]⟩], [], 5, [⟨"alice", [0]⟩]⟩ "door"
              ⟨true, true, 100, .found "alice", true, 101⟩).1 "door"
            ⟨true, true, 103, .found "alice", true, 104⟩).2 = false) ∧
      ((5 : ℤ) ≤ 103 - 101 →
        (⟨true, true, 103, .found "alice", true, 104⟩ : ProcessCall).match_outcome =
          .found "alice" →
        (true : Bool) = true →
        (async_process_image
            (async_process_image ⟨true, [⟨"alice", [0]⟩], [], 5, [⟨"alice", [0]⟩]⟩ "door"
              ⟨true, true, 100, .found "alice", true, 101⟩).1 "door"
            ⟨true, true, 103, .found "alice", true, 104⟩).2 = true)) ∧
    ((true : Bool) = false →
      (async_process_image ⟨true, [⟨"alice", [0]⟩], [], 5, [⟨"alice", [0]⟩]⟩ "door"
          ⟨true, true, 100, .found "alice", true, 101⟩).2 = false ∧
      (async_process_image ⟨true, [⟨"alice", [0]⟩], [], 5, [⟨"alice", [0]⟩]⟩ "door"
          ⟨true, true, 100, .found "alice", true, 101⟩).1 =
        ⟨true, [⟨"alice", [0]⟩], [], 5, [⟨"alice", [0]⟩]⟩ ∧
      ((100 : ℤ) ≤ 103 →
        (⟨true, true, 103, .found "alice", true, 104⟩ : ProcessCall).match_outcome =
          .found "alice" →
        (true : Bool) = true →
        (async_process_image ⟨true, [⟨"alice", [0]⟩], [], 5, [⟨"alice", [0]⟩]⟩ "door"
            ⟨true, true, 103, .found "alice", true, 104⟩).2 = true)) :=
  c5_cooldown ⟨true, [⟨"alice", [0]⟩], [], 5, [⟨"alice", [0]⟩]⟩ "door"
    ⟨true, true, 100, .found "alice", true, 101⟩
    ⟨true, true, 103, .found "alice", true, 104⟩ "alice" "alice"
    rfl rfl rfl rfl rfl rfl rfl (by decide) (by decide)

theorem int_min?_spec {l : List ℤ} {a : ℤ} (h : l.min? = some a) :
    a ∈ l ∧ ∀ b ∈ l, a ≤ b := by
  letI anti : Std.Antisymm fun (x1 x2 : ℤ) => x1 ≤ x2 :=
    ⟨fun h1 h2 => le_antisymm h1 h2⟩
  rw [List.min?_eq_some_iff le_refl min_choice (fun a b c => le_min_iff)] at h
  exact h

theorem face_distance_eq {κ ε : Type} (d : κ → ε → ℤ) (knowns : List (String × κ)) (e : ε) :
    face_distance d (knowns.map Prod.snd) e = knowns.map (fun p => d p.2 e) := by
  simp [face_distance, List.map_map]

theorem matchStep_keeps_bound {κ ε : Type} {d : κ → ε → ℤ} {knowns : List (String × κ)}
    {threshold : ℤ} {best : Option (String × ℤ)} {e : ε}
    (hbest : ∀ q, best = some q → q.2 ≤ threshold) :
    ∀ q, matchStep d knowns threshold best e = some q → q.2 ≤ threshold := by
  intro q hq
  unfold matchStep at hq
  cases hmin : (face_distance d (knowns.map Prod.snd) e).min? with
  | none => rw [hmin] at hq; exact hbest q hq
  | some bd0 =>
    rw [hmin] at hq
    dsimp only at hq
    by_cases hth : bd0 ≤ threshold
    · rw [if_pos hth] at hq
      cases hb : best with
      | none => rw [hb] at hq; dsimp only at hq; injection hq with hq'; rw [← hq']; exact hth
      | some p =>
        rw [hb] at hq
        dsimp only at hq
        by_cases hlt : bd0 < p.2
        · rw [if_pos hlt] at hq; injection hq with hq'; rw [← hq']; exact hth
        · rw [if_neg hlt] at hq; exact hbest q (hb.trans hq)
    · rw [if_neg hth] at hq
      exact hbest q hq

theorem matchStep_none_iff {κ ε : Type} {d : κ → ε → ℤ} {knowns : List (String × κ)}
    {threshold : ℤ} {best : Option (String × ℤ)} {e : ε} :
    matchStep d knowns threshold best e = none ↔
      best = none ∧ ∀ p ∈ knowns, threshold < d p.2 e := by
  cases hmin : (face_distance d (knowns.map Prod.snd) e).min? with
  | none =>
    have hnil : knowns = [] := by
      have := List.min?_eq_none_iff.mp hmin
      rw [face_distance_eq] at this
      exact List.map_eq_nil_iff.mp this
    subst hnil
    unfold matchStep
    rw [hmin]
    simp
  | some bd0 =>
    have hspec := int_min?_spec hmin
    rw [face_distance_eq] at hspec
    constructor
    · intro hq
      unfold matchStep at hq
      rw [hmin] at hq
      dsimp only at hq
      by_cases hth : bd0 ≤ threshold
      · rw [if_pos hth] at hq
        cases hb : best with
        | none => rw [hb] at hq; dsimp only at hq; cases hq
        | some p =>
          rw [hb] at hq
          dsimp only at hq
          by_cases hlt : bd0 < p.2
          · rw [if_pos hlt] at hq; cases hq
          · rw [if_neg hlt] at hq; cases hq
      · rw [if_neg hth] at hq
        refine ⟨hq, fun p hp => ?_⟩
        have hle : bd0 ≤ d p.2 e := hspec.2 _ (List.mem_map.mpr ⟨p, hp, rfl⟩)
        omega
    · intro ⟨hb, hbig⟩
      obtain ⟨p0, hp0, hdp0⟩ := List.mem_map.mp hspec.1
      have hth : ¬ bd0 ≤ threshold := by
        have := hbig p0 hp0
        omega
      unfold matchStep
      rw [hmin]
      dsimp only
      rw [if_neg hth]
      exact hb

theorem findIdx_attain {α : Type} (f : α → ℤ) (g : α → String) (l : List α) (bd0 : ℤ)
    (hmem : bd0 ∈ l.map f) :
    ∃ p ∈ l, f p = bd0 ∧
      g p = (l.map g).getD ((l.map f).findIdx (fun x => x == bd0)) "" := by
  induction l with
  | nil => cases hmem
  | cons k ks ih =>
    cases h : (f k == bd0) with
    | true =>
      refine ⟨k, List.mem_cons_self k ks, eq_of_beq h, ?_⟩
      simp [List.findIdx_cons, h]
    | false =>
      have hne : bd0 ≠ f k := by
        intro hb
        rw [hb] at h
        simp at h
      have hmem2 : bd0 ∈ ks.map f := by
        rw [List.map_cons] at hmem
        rcases List.mem_cons.mp hmem with hh | hh
        · exact absurd hh hne
        · exact hh
      obtain ⟨p, hp, hfp, hgp⟩ := ih hmem2
      refine ⟨p, List.mem_cons_of_mem k hp, hfp, ?_⟩
      rw [List.map_cons, List.map_cons, List.findIdx_cons, h]
      simpa using hgp

theorem matchStep_some_spec {κ ε : Type} {d : κ → ε → ℤ} {knowns : List (String × κ)}
    {threshold : ℤ} {best : Option (String × ℤ)} {e : ε} {nm : String} {bd : ℤ}
    (hbest : ∀ q, best = some q → q.2 ≤ threshold)
    (hq : matchStep d knowns threshold best e = some (nm, bd)) :
    bd ≤ threshold ∧
    (best = some (nm, bd) ∨ ∃ p ∈ knowns, p.1 = nm ∧ d p.2 e = bd) ∧
    (∀ p ∈ knowns, bd ≤ d p.2 e) ∧
    (∀ q, best = some q → bd ≤ q.2) := by
  have hball := matchStep_keeps_bound hbest (nm, bd) hq
  unfold matchStep at hq
  cases hmin : (face_distance d (knowns.map Prod.snd) e).min? with
  | none =>
    rw [hmin] at hq
    dsimp only at hq
    have hnil : knowns = [] := by
      have := List.min?_eq_none_iff.mp hmin
      rw [face_distance_eq] at this
      exact List.map_eq_nil_iff.mp this
    subst hnil
    refine ⟨hball, Or.inl hq, by simp, fun q hbq => ?_⟩
    rw [hq] at hbq
    injection hbq with h'
    rw [← h']
  | some bd0 =>
    rw [hmin] at hq
    dsimp only at hq
    have hspec := int_min?_spec hmin
    have hspec2 := hspec.2
    rw [face_distance_eq] at hspec2
    have hpairle : ∀ p ∈ knowns, bd0 ≤ d p.2 e :=
      fun p hp => hspec2 _ (List.mem_map.mpr ⟨p, hp, rfl⟩)
    have hnew : ∀ (hmem : bd0 ∈ face_distance d (knowns.map Prod.snd) e),
        ∃ p ∈ knowns, p.1 = matchCandidate d knowns e bd0 ∧ d p.2 e = bd0 := by
      intro hmem
      rw [face_distance_eq] at hmem
      obtain ⟨p, hp, hfp, hgp⟩ := findIdx_attain (fun p => d p.2 e) Prod.fst knowns bd0 hmem
      refine ⟨p, hp, ?_, hfp⟩
      unfold matchCandidate
      rw [face_distance_eq]
      exact hgp
    by_cases hth : bd0 ≤ threshold
    · rw [if_pos hth] at hq
      cases hb : best with
      | none =>
        rw [hb] at hq
        dsimp only at hq
        injection hq with h1
        injection h1 with hnm hbd
        subst hbd
        obtain ⟨p, hp, hpn, hpd⟩ := hnew hspec.1
        refine ⟨hball, Or.inr ⟨p, hp, by rw [hpn, hnm], hpd⟩, hpairle, fun q hbq => by
          cases hbq⟩
      | some prev =>
        rw [hb] at hq
        dsimp only at hq
        by_cases hlt : bd0 < prev.2
        · rw [if_pos hlt] at hq
          injection hq with h1
          injection h1 with hnm hbd
          subst hbd
          obtain ⟨p, hp, hpn, hpd⟩ := hnew hspec.1
          refine ⟨hball, Or.inr ⟨p, hp, by rw [hpn, hnm], hpd⟩, hpairle, fun q hbq => ?_⟩
          injection hbq with h2
          rw [← h2]
          omega
        · rw [if_neg hlt] at hq
          have hprev : prev = (nm, bd) := by injection hq
          have hbdprev : bd = prev.2 := by rw [hprev]
          refine ⟨hball, Or.inl (by rw [hprev]), fun p hp => ?_, fun q hbq => ?_⟩
          · have := hpairle p hp
            omega
          · injection hbq with h2
            rw [← h2, hbdprev]
    · rw [if_neg hth] at hq
      refine ⟨hball, Or.inl hq, fun p hp => ?_, fun q hbq => ?_⟩
      · have := hpairle p hp
        omega
      · rw [hq] at hbq
        injection hbq with h2
        rw [← h2]

theorem matchFold_spec {κ ε : Type} (d : κ → ε → ℤ) (knowns : List (String × κ))
    (threshold : ℤ) (encodings : List ε) :
    ∀ best : Option (String × ℤ),
      (∀ q, best = some q → q.2 ≤ threshold) →
      ((encodings.foldl (matchStep d knowns threshold) best = none ↔
        best = none ∧ ∀ e ∈ encodings, ∀ p ∈ knowns, threshold < d p.2 e) ∧
      (∀ nm bd, encodings.foldl (matchStep d knowns threshold) best = some (nm, bd) →
        bd ≤ threshold ∧
        (best = some (nm, bd) ∨ ∃ e ∈ encodings, ∃ p ∈ knowns, p.1 = nm ∧ d p.2 e = bd) ∧
        (∀ e ∈ encodings, ∀ p ∈ knowns, bd ≤ d p.2 e) ∧
        (∀ q, best = some q → bd ≤ q.2))) := by
  induction encodings with
  | nil =>
    intro best hbest
    constructor
    · simp
    · intro nm bd h
      simp only [List.foldl_nil] at h
      refine ⟨hbest _ h, Or.inl h, by simp, fun q hq => ?_⟩
      rw [h] at hq
      injection hq with h'
      rw [← h']
  | cons e es ih =>
    intro best hbest
    have hbest' := @matchStep_keeps_bound κ ε d knowns threshold best e hbest
    have ihspec := ih (matchStep d knowns threshold best e) hbest'
    constructor
    · rw [List.foldl_cons]
      rw [ihspec.1]
      constructor
      · intro ⟨hstep, hes⟩
        obtain ⟨hb, hbig⟩ := matchStep_none_iff.mp hstep
        refine ⟨hb, ?_⟩
        intro e2 he2
        rcases List.mem_cons.mp he2 with h | h
        · rw [h]; exact hbig
        · exact hes e2 h
      · intro ⟨hb, hbig⟩
        refine ⟨matchStep_none_iff.mpr ⟨hb, hbig e (List.mem_cons_self e es)⟩, ?_⟩
        intro e2 he2
        exact hbig e2 (List.mem_cons_of_mem e he2)
    · intro nm bd h
      rw [List.foldl_cons] at h
      obtain ⟨hle, horigin, hbound, hmono⟩ := ihspec.2 nm bd h
      refine ⟨hle, ?_, ?_, ?_⟩
      · rcases horigin with hstep | ⟨e2, he2, p, hp, hpn, hpd⟩
        · obtain ⟨_, horigin2, _, _⟩ := matchStep_some_spec hbest hstep
          rcases horigin2 with hb | ⟨p, hp, hpn, hpd⟩
          · exact Or.inl hb
          · exact Or.inr ⟨e, List.mem_cons_self e es, p, hp, hpn, hpd⟩
        · exact Or.inr ⟨e2, List.mem_cons_of_mem e he2, p, hp, hpn, hpd⟩
      · intro e2 he2 p hp
        rcases List.mem_cons.mp he2 with h2 | h2
        · rw [h2]
          cases hstep : matchStep d knowns threshold best e with
          | none =>
            obtain ⟨_, hbig⟩ := matchStep_none_iff.mp hstep
            have := hbig p hp
            omega
          | some q' =>
            have hq' := hmono q' hstep
            obtain ⟨_, _, hbound', _⟩ := matchStep_some_spec hbest
              (show matchStep d knowns threshold best e = some (q'.1, q'.2) by
                rw [Prod.mk.eta]; exact hstep)
            have := hbound' p hp
            omega
        · exact hbound e2 h2 p hp
      · intro q hq
        cases hstep : matchStep d knowns threshold best e with
        | none =>
          obtain ⟨hb, _⟩ := matchStep_none_iff.mp hstep
          rw [hq] at hb
          cases hb
        | some q' =>
          have h1 := hmono q' hstep
          obtain ⟨_, _, _, hmono'⟩ := matchStep_some_spec hbest
            (show matchStep d knowns threshold best e = some (q'.1, q'.2) by
              rw [Prod.mk.eta]; exact hstep)
          have h2 := hmono' q hq
          omega

/-- C6: the matcher returns None exactly when no detected encoding is within
the threshold of any known vector, and whenever it returns a name, that name
belongs to a known face whose distance to one of the frame's encodings
clears the threshold and is minimal over every (encoding, known-face) pair,
i.e. the globally-closest accepted match.  In particular a best distance of
threshold plus epsilon yields None and threshold minus epsilon yields the
matching name. -/
theorem c6_match_known_faces {κ ε : Type} (d : κ → ε → ℤ) (knowns : List (String × κ))
    (threshold : ℤ) (encodings : List ε) :
    (_match_known_faces d knowns threshold encodings = none ↔
      ∀ e ∈ encodings, ∀ p ∈ knowns, threshold < d p.2 e) ∧
    (∀ nm, _match_known_faces d knowns threshold encodings = some nm →
      ∃ e ∈ encodings, ∃ p ∈ knowns, p.1 = nm ∧ d p.2 e ≤ threshold ∧
        ∀ e2 ∈ encodings, ∀ q ∈ knowns, d p.2 e ≤ d q.2 e2) := by
  have hspec := matchFold_spec d knowns threshold encodings none (fun q hq => by cases hq)
  constructor
  · unfold _match_known_faces
    rw [Option.map_eq_none']
    rw [hspec.1]
    simp
  · intro nm h
    unfold _match_known_faces at h
    obtain ⟨pr, hpr, hprnm⟩ := Option.map_eq_some'.mp h
    obtain ⟨hle, horigin, hbound, _⟩ := hspec.2 pr.1 pr.2 (by rw [Prod.mk.eta]; exact hpr)
    rcases horigin with hnone | ⟨e, he, p, hp, hpn, hpd⟩
    · cases hnone
    · refine ⟨e, he, p, hp, by rw [hpn, hprnm], ?_, ?_⟩
      · rw [hpd]; exact hle
      · intro e2 he2 q hq
        rw [hpd]
        exact hbound e2 he2 q hq

/-- C6 witness: with the absolute-difference metric, known faces alice (at 0)
and bob (at 10) and threshold 3, a frame encoding at 14 (best distance 4,
threshold plus one) matches nothing, and a frame encoding at 13 (best
distance 3) yields bob as the globally-closest accepted match. -/
theorem c6_match_known_faces_witness :
    (_match_known_faces (fun a b : ℤ => max (a - b) (b - a))
        [("alice", (0 : ℤ)), ("bob", 10)] 3 [(14 : ℤ)] = none) ∧
    (∃ e ∈ [(13 : ℤ)], ∃ p ∈ [("alice", (0 : ℤ)), ("bob", 10)], p.1 = "bob" ∧
      (fun a b : ℤ => max (a - b) (b - a)) p.2 e ≤ 3 ∧
      ∀ e2 ∈ [(13 : ℤ)], ∀ q ∈ [("alice", (0 : ℤ)), ("bob", 10)],
        (fun a b : ℤ => max (a - b) (b - a)) p.2 e ≤
          (fun a b : ℤ => max (a - b) (b - a)) q.2 e2) :=
  ⟨(c6_match_known_faces (fun a b : ℤ => max (a - b) (b - a))
      [("alice", (0 : ℤ)), ("bob", 10)] 3 [(14 : ℤ)]).1.mpr (by decide),
   (c6_match_known_faces (fun a b : ℤ => max (a - b) (b - a))
      [("alice", (0 : ℤ)), ("bob", 10)] 3 [(13 : ℤ)]).2 "bob" (by decide)⟩

/-- C1: for every token (mobile or CRM), is_expired is true iff access_end is
non-null and the current time is at or past access_end minus the 60-second
expiry margin; a token with null access_end is never reported expired. -/
theorem c1_token_expiry (mt : MobileToken) (ct : CrmToken) (now : Int) :
    (mt.is_expired now = true ↔
      ∃ e, mt.access_end = some e ∧ now ≥ e - TOKEN_EXPIRATION_MARGIN) ∧
    (ct.is_expired now = true ↔
      ∃ e, ct.access_end = some e ∧ now ≥ e - TOKEN_EXPIRATION_MARGIN) ∧
    (mt.access_end = none → mt.is_expired now = false) ∧
    (ct.access_end = none → ct.is_expired now = false) := by
  refine ⟨?_, ?_, ?_, ?_⟩
  · cases h : mt.access_end <;> simp [MobileToken.is_expired, h]
  · cases h : ct.access_end <;> simp [CrmToken.is_expired, h]
  · intro h; simp [MobileToken.is_expired, h]
  · intro h; simp [CrmToken.is_expired, h]

/-- C1 witness: a token whose window ends at 1000 is expired at 940 (inside
the 60-second margin), and a token with null access_end is not expired. -/
theorem c1_token_expiry_witness :
    (⟨"m", 1, 2, none, some 1000⟩ : MobileToken).is_expired 940 = true ∧
    (⟨"c", none, none, none⟩ : CrmToken).is_expired 940 = false :=
  ⟨(c1_token_expiry ⟨"m", 1, 2, none, some 1000⟩ ⟨"c", none, none, none⟩ 940).1.mpr
      ⟨1000, rfl, by decide⟩,
   (c1_token_expiry ⟨"m", 1, 2, none, some 1000⟩ ⟨"c", none, none, none⟩ 940).2.2.2 rfl⟩

/-- C2: the claim asserts that a cycle request arriving while a cycle is
running is coalesced into exactly one additional cycle after the in-flight
cycle completes.  In the code the overlapping request is dropped: it changes
nothing (the state after the second request equals the state after the
first), and after the in-flight cycle completes exactly one cycle has ever
started and the processor is idle with nothing pending, so no additional
cycle runs.  The repository's own test (test_background.py,
test_background_processor_repeats_cycle_when_busy) expects the pending-run
flag and a second automatic cycle, which the source lacks. -/
theorem c2_overlapping_request_dropped :
    requestCycle (requestCycle ⟨true, false, 0⟩) = requestCycle ⟨true, false, 0⟩ ∧
    completeCycle (requestCycle (requestCycle ⟨true, false, 0⟩)) =
      ⟨true, false, 1⟩ ∧
    (completeCycle (requestCycle (requestCycle ⟨true, false, 0⟩))).cycles_started = 1 := by
  refine ⟨rfl, rfl, rfl⟩

/-- C9: removing a known face by an absent name fails and leaves both the
known-faces list and the persisted options unchanged; removing by a present
name succeeds, drops every entry with that name, keeps every other entry and
persists exactly the remaining list. -/
theorem c9_remove_known_face (st : FaceManagerState) (name : String) :
    ((∀ f ∈ st.known_faces, f.name ≠ name) →
      async_remove_known_face st name = (st, false)) ∧
    ((∃ f ∈ st.known_faces, f.name = name) →
      (async_remove_known_face st name).2 = true ∧
      (∀ f ∈ (async_remove_known_face st name).1.known_faces, f.name ≠ name) ∧
      (∀ f ∈ st.known_faces, f.name ≠ name →
        f ∈ (async_remove_known_face st name).1.known_faces) ∧
      (async_remove_known_face st name).1.options_known_faces =
        (async_remove_known_face st name).1.known_faces) := by
  constructor
  · intro hall
    have hfilter : st.known_faces.filter (fun f => decide (f.name ≠ name)) = st.known_faces :=
      List.filter_eq_self.mpr (fun f hf => by simpa using hall f hf)
    simp only [async_remove_known_face, hfilter, if_pos rfl, if_true]
  · intro hex
    obtain ⟨f0, hf0, hf0n⟩ := hex
    have hlt : (st.known_faces.filter (fun f => decide (f.name ≠ name))).length <
        st.known_faces.length := by
      apply List.length_filter_lt_length_iff_exists.mpr
      exact ⟨f0, hf0, by simp [hf0n]⟩
    have hne : ¬ (st.known_faces.filter (fun f => decide (f.name ≠ name))).length =
        st.known_faces.length := Nat.ne_of_lt hlt
    refine ⟨?_, ?_, ?_, ?_⟩ <;>
      simp only [async_remove_known_face, if_neg hne]
    · intro f hf
      have := List.of_mem_filter hf
      simpa using this
    · intro f hf hfn
      exact List.mem_filter.mpr ⟨hf, by simpa using hfn⟩

/-- C9 witness: concrete store holding faces named alice and bob; removing a
missing name fails without change, and the removal branch hypotheses are
satisfiable. -/
theorem c9_remove_known_face_witness :
    ((∀ f ∈ [KnownFace.mk "alice" [1], KnownFace.mk "bob" [2]], f.name ≠ "carol") →
      async_remove_known_face ⟨true, [KnownFace.mk "alice" [1], KnownFace.mk "bob" [2]],
        [], 30, [KnownFace.mk "alice" [1], KnownFace.mk "bob" [2]]⟩ "carol" =
        (⟨true, [KnownFace.mk "alice" [1], KnownFace.mk "bob" [2]],
          [], 30, [KnownFace.mk "alice" [1], KnownFace.mk "bob" [2]]⟩, false)) ∧
    (∀ f ∈ [KnownFace.mk "alice" [1], KnownFace.mk "bob" [2]], f.name ≠ "carol") :=
  ⟨(c9_remove_known_face ⟨true, [KnownFace.mk "alice" [1], KnownFace.mk "bob" [2]],
      [], 30, [KnownFace.mk "alice" [1], KnownFace.mk "bob" [2]]⟩ "carol").1,
   by decide⟩

theorem sanitizeEntries_map (es : List (String × PyVal)) :
    sanitizeEntries es = es.map (fun e => (e.1, _sanitize_value e.1 e.2)) := by
  induction es with
  | nil => rfl
  | cons e rest ih => simp only [sanitizeEntries, List.map_cons, ih]

theorem sanitizeItems_map (key : String) (xs : List PyVal) :
    sanitizeItems key xs = xs.map (_sanitize_value key) := by
  induction xs with
  | nil => rfl
  | cons v rest ih => simp only [sanitizeItems, List.map_cons, ih]

theorem splitFirstSpaceAux_append (pre : List Char) (hpre : ∀ c ∈ pre, c ≠ ' ')
    (rest : List Char) :
    splitFirstSpaceAux (pre ++ ' ' :: rest) = some (pre, rest) := by
  induction pre with
  | nil => simp [splitFirstSpaceAux]
  | cons c cs ih =>
    simp only [List.cons_append, splitFirstSpaceAux]
    rw [if_neg (hpre c (List.mem_cons_self c cs))]
    simp only [List.append_eq]
    rw [ih (fun x hx => hpre x (List.mem_cons_of_mem c hx))]
    rfl

theorem pySplitOnce_bearer (s : String) : pySplitOnce ("Bearer " ++ s) = ["Bearer", s] := by
  unfold pySplitOnce
  have hdata : ("Bearer " ++ s).data = "Bearer".data ++ ' ' :: s.data := by
    rw [String.data_append]
    rfl
  rw [hdata, splitFirstSpaceAux_append "Bearer".data (by decide) s.data]

theorem sanitize_pstr_full_mask (k : String) (s : String) (h : pyLower k ∈ FULL_MASK_KEYS) :
    _sanitize_value k (.pstr s) = .pstr "***" := by
  simp only [_sanitize_value, if_pos h]
  rw [mask_string_false]

theorem sanitize_pstr_bearer (k : String) (s : String) (h : pyLower k = "authorization") :
    _sanitize_value k (.pstr ("Bearer " ++ s)) = .pstr "Bearer ***" := by
  have hfull : ¬ pyLower k ∈ FULL_MASK_KEYS := by rw [h]; decide
  have hkeep : ¬ pyLower k ∈ KEEP_ENDS_MASK_KEYS := by rw [h]; decide
  simp only [_sanitize_value, if_neg hfull, if_neg hkeep, if_pos h]
  rw [pySplitOnce_bearer]
  dsimp only
  rw [mask_string_false]
  rfl

theorem sanitize_secretEquiv {k : String} {v1 v2 : PyVal} (h : SecretEquiv k v1 v2) :
    _sanitize_value k v1 = _sanitize_value k v2 := by
  induction h with
  | refl k v => rfl
  | secret k s1 s2 hmem =>
    rw [sanitize_pstr_full_mask k s1 hmem, sanitize_pstr_full_mask k s2 hmem]
  | bearer k s1 s2 hauth =>
    rw [sanitize_pstr_bearer k s1 hauth, sanitize_pstr_bearer k s2 hauth]
  | dict k es1 es2 hlen hkey hval ih =>
    have hent : sanitizeEntries es1 = sanitizeEntries es2 := by
      rw [sanitizeEntries_map, sanitizeEntries_map]
      apply List.ext_getElem
      · simp [hlen]
      · intro i hi1 hi2
        rw [List.length_map] at hi1 hi2
        simp only [List.getElem_map]
        have hk := hkey i hi1 hi2
        have hv := ih i hi1 hi2
        rw [List.get_eq_getElem] at hk hv
        rw [List.get_eq_getElem] at hk hv
        refine Prod.ext hk ?_
        rw [hv, hk]
    simp only [_sanitize_value, hent]
  | list k xs1 xs2 hlen hval ih =>
    have hitems : sanitizeItems k xs1 = sanitizeItems k xs2 := by
      rw [sanitizeItems_map, sanitizeItems_map]
      apply List.ext_getElem
      · simp [hlen]
      · intro i hi1 hi2
        rw [List.length_map] at hi1 hi2
        simp only [List.getElem_map]
        have hv := ih i hi1 hi2
        rw [List.get_eq_getElem] at hv
        rw [List.get_eq_getElem] at hv
        exact hv
    simp only [_sanitize_value, hitems]

/-- C10: the sanitized request context is identical for any two request
contexts that differ only in string values stored under fully-masked secret
keys (token, confirmcode, code, password, authid, case-insensitively, at any
nesting depth in headers, json or params) or in the secret part of a Bearer
Authorization header value: the log output carries no information about
those secrets. -/
theorem c10_sanitize_noninterference (c1 c2 : RequestContext)
    (h : ContextSecretEquiv c1 c2) :
    _sanitize_request_context c1 = _sanitize_request_context c2 := by
  obtain ⟨hm, hu, hh, hj, hp⟩ := h
  have hH := sanitize_secretEquiv hh
  have hJ := sanitize_secretEquiv hj
  have hP := sanitize_secretEquiv hp
  simp only [_sanitize_value] at hH hJ hP
  injection hH with hH2
  injection hJ with hJ2
  injection hP with hP2
  cases c1 with
  | mk m1 u1 h1 j1 p1 =>
    cases c2 with
    | mk m2 u2 h2 j2 p2 =>
      simp only at hm hu hH2 hJ2 hP2
      unfold _sanitize_request_context
      simp only [hm, hu, hH2, hJ2, hP2]

/-- C10 witness: two concrete contexts differing only in the Bearer secret,
the token value and the confirmCode value sanitize to the same record. -/
theorem c10_sanitize_noninterference_witness :
    _sanitize_request_context
      ⟨"POST", "https://api.example/open",
       [("Authorization", .pstr ("Bearer " ++ "abc123")), ("X-Api-Source", .pstr "app")],
       [("token", .pstr "abc123"), ("userId", .pint 7)],
       [("confirmCode", .pstr "1234")]⟩ =
    _sanitize_request_context
      ⟨"POST", "https://api.example/open",
       [("Authorization", .pstr ("Bearer " ++ "zz9")), ("X-Api-Source", .pstr "app")],
       [("token", .pstr "other-secret"), ("userId", .pint 7)],
       [("confirmCode", .pstr "9876")]⟩ :=
  c10_sanitize_noninterference _ _
    ⟨rfl, rfl,
     SecretEquiv.dict _ _ _ rfl
       (by
         intro i h1 h2
         simp only [List.length_cons, List.length_nil] at h1
         interval_cases i <;> rfl)
       (by
         intro i h1 h2
         simp only [List.length_cons, List.length_nil] at h1
         interval_cases i
         · exact SecretEquiv.bearer "Authorization" "abc123" "zz9" (by decide)
         · exact SecretEquiv.refl _ _),
     SecretEquiv.dict _ _ _ rfl
       (by
         intro i h1 h2
         simp only [List.length_cons, List.length_nil] at h1
         interval_cases i <;> rfl)
       (by
         intro i h1 h2
         simp only [List.length_cons, List.length_nil] at h1
         interval_cases i
         · exact SecretEquiv.secret "token" "abc123" "other-secret" (by decide)
         · exact SecretEquiv.refl _ _),
     SecretEquiv.dict _ _ _ rfl
       (by
         intro i h1 h2
         simp only [List.length_cons, List.length_nil] at h1
         interval_cases i <;> rfl)
       (by
         intro i h1 h2
         simp only [List.length_cons, List.length_nil] at h1
         interval_cases i
         · exact SecretEquiv.secret "confirmCode" "1234" "9876" (by decide))⟩

end Intersvyaz
